import Mathlib

/-!
Shallow embedding of the oodx/syntax repository: the template AST with its
three dialect parsers (src/tmpl/mod.rs and src/tmpl/parser/), the command
model (src/cmd/mod.rs), the POSIX and Windows command renderers
(src/render/mod.rs) and the Store function resolver (src/easy.rs),
together with theorems settling the specification's claims.

Strings are modelled as `String` and scanned as their `List Char`; the Rust
code scans bytes and compares `bytes[i] as char`, which agrees with the
character-level scan on ASCII input (every delimiter the parsers react to is
ASCII).  Helper scan functions that the parsers recurse on carry a length
bound in a subtype so that termination is by the input's length.
-/

set_option linter.unnecessarySeqFocus false
set_option linter.unusedVariables false

/-- Error type of src/error.rs (`SyntaxError`). -/
inductive SyntaxError where
  | InvalidArgument (s : String)
  | RenderError (s : String)
  | ResolveError (s : String)
deriving DecidableEq

/-- Rust `Vec::join(sep)` on strings: the pieces joined with `sep` between
consecutive pieces. -/
def joinSep (sep : String) : List String → String
  | [] => ""
  | [x] => x
  | x :: y :: rest => x ++ sep ++ joinSep sep (y :: rest)

/-- The scan of `Template::parse` for the `}` that closes a `$\x7b`:
`some (name, rest)` splits the input at the first `}`, `none` when there is
none.  The bound `rest.length < l.length` feeds the parsers' termination. -/
def breakBrace : (l : List Char) → Option { p : List Char × List Char // p.1.length + p.2.length + 1 = l.length }
  | [] => none
  | c :: cs =>
    if c = '}' then some ⟨([], cs), by simp⟩
    else
      match breakBrace cs with
      | none => none
      | some ⟨(nm, r), h⟩ => some ⟨(c :: nm, r), by simp at h ⊢ <;> omega⟩

/-- The balanced-parenthesis scan of the `%name:arg(text)` parsers: from
nesting depth `d` (the call sites start at 1, just past a `(`), `some (text,
rest)` splits at the `)` that returns the depth to zero; `none` when the
input ends first ("Unclosed ( in %func call"). -/
def breakParen : (l : List Char) → (d : Nat) → Option { p : List Char × List Char // p.1.length + p.2.length + 1 = l.length }
  | [], _ => none
  | c :: cs, d =>
    if c = ')' ∧ d = 1 then some ⟨([], cs), by simp⟩
    else
      match breakParen cs (if c = '(' then d + 1 else if c = ')' then d - 1 else d) with
      | none => none
      | some ⟨(g, r), h⟩ => some ⟨(c :: g, r), by simp at h ⊢ <;> omega⟩

/-- The scan of `Template::parse_simple` for the first adjacent `\x7d\x7d`
pair: `some (inner, rest)` splits around it, `none` when there is no such
pair (the Rust loop runs while `j + 1 < bytes.len()`). -/
def breakBraces2 : (l : List Char) → Option { p : List Char × List Char // p.1.length + p.2.length + 2 = l.length }
  | '}' :: '}' :: r => some ⟨([], r), by simp⟩
  | c :: cs =>
    match breakBraces2 cs with
    | none => none
    | some ⟨(inner, r), h⟩ => some ⟨(c :: inner, r), by simp at h ⊢ <;> omega⟩
  | [] => none

/-- Rust `char::is_whitespace`: the Unicode `White_Space` code points
(U+0009..U+000D, space, NEL, NBSP, OGHAM SPACE MARK, the U+2000..U+200A
spaces, the line and paragraph separators, NARROW NO-BREAK SPACE, MEDIUM
MATHEMATICAL SPACE and IDEOGRAPHIC SPACE). -/
def rustIsWhitespace (c : Char) : Bool :=
  [0x9, 0xA, 0xB, 0xC, 0xD, 0x20, 0x85, 0xA0, 0x1680,
   0x2000, 0x2001, 0x2002, 0x2003, 0x2004, 0x2005, 0x2006, 0x2007, 0x2008, 0x2009, 0x200A,
   0x2028, 0x2029, 0x202F, 0x205F, 0x3000].contains c.toNat

/-- Rust `str::trim`: leading and trailing Unicode whitespace removed. -/
def trimChars (l : List Char) : List Char :=
  ((l.dropWhile rustIsWhitespace).reverse.dropWhile rustIsWhitespace).reverse

namespace Tmpl

/-- The AST of src/tmpl/mod.rs: `Segment` with `Lit`, `Var` and `Func` whose
arguments are plain strings. -/
inductive Segment where
  | Lit (s : String)
  | Var (k : String)
  | Func (name : String) (args : List String)
deriving DecidableEq

/-- `Template(pub Vec<Segment>)` of src/tmpl/mod.rs, as the segment list. -/
abbrev Template := List Segment

/-- Push of the pending literal accumulator: the Rust parsers emit
`Segment::Lit` only when the accumulator is non-empty. -/
def flushSegs (lit : List Char) (tl : List Segment) : List Segment :=
  if lit.isEmpty then tl else Segment.Lit ⟨lit⟩ :: tl

/-- Characters allowed in a `$\x7bVAR\x7d` name: `is_ascii_alphanumeric`,
`_` or `-` (src/tmpl/mod.rs `parse`). -/
def varNameChar (c : Char) : Bool := c.isAlphanum || c = '_' || c = '-'

/-- Scan loop of `Template::parse` (src/tmpl/mod.rs lines 31-83): `inp` is
the unread input, `lit` the pending literal text. -/
def parseAux (inp : List Char) (lit : List Char) : Except SyntaxError (List Segment) :=
  match inp with
  | [] => .ok (flushSegs lit [])
  | c :: rest =>
    if c = '$' then
      match rest with
      | '$' :: r2 => parseAux r2 (lit ++ ['$'])
      | '{' :: r2 =>
        match breakBrace r2 with
        | none => .error (.ResolveError "Unclosed $\x7b in template")
        | some ⟨(nm, r3), hsub⟩ =>
          if nm.all varNameChar then
            (parseAux r3 []).map (fun tl => flushSegs lit (Segment.Var ⟨nm⟩ :: tl))
          else .error (.ResolveError ("Invalid var name: " ++ ⟨nm⟩))
      | [] => parseAux [] (lit ++ ['$'])
      | c2 :: r2 => parseAux (c2 :: r2) (lit ++ ['$'])
    else parseAux rest (lit ++ [c])
termination_by inp.length
decreasing_by all_goals simp_all <;> omega

/-- `Template::parse` (shell-style dialect). -/
def parse (s : String) : Except SyntaxError Template := parseAux s.data []

/-- Characters of a `%name`: `is_ascii_alphanumeric`, `_` or `-`
(src/tmpl/mod.rs `parse_jynx`). -/
def jynxNameChar (c : Char) : Bool := c.isAlphanum || c = '_' || c = '-'

/-- Characters of the `arg` token of `%name:arg(...)`: anything up to the
first `(` or Unicode whitespace (`char::is_whitespace`). -/
def argTokChar (c : Char) : Bool := !(c = '(' || rustIsWhitespace c)

/-- Head of a `%name:arg(` call (shared by `parse_jynx` of src/tmpl/mod.rs,
`parse_jynx` of src/tmpl/parser/jynx.rs and the function shape of
`parse_simple`): `some (name, arg, r4)` when a non-empty name of
`jynxNameChar`s is followed by `:`, an argument token (up to the first `(`
or whitespace) and a `(`, with `r4` the input just past that `(`; `none`
when the shape fails (the caller falls back to a literal).  The bound on
`r4` feeds the parsers' termination. -/
def scanCallHead (rest : List Char) : Option (List Char × List Char × { r4 : List Char // r4.length + 2 ≤ rest.length }) :=
  if (rest.takeWhile jynxNameChar).isEmpty then none
  else
    if h1 : ((rest.dropWhile jynxNameChar).head? = some ':') then
      if h2 : (((rest.dropWhile jynxNameChar).tail.dropWhile argTokChar).head? = some '(') then
        some (rest.takeWhile jynxNameChar,
          (rest.dropWhile jynxNameChar).tail.takeWhile argTokChar,
          ⟨((rest.dropWhile jynxNameChar).tail.dropWhile argTokChar).tail, by
            have hb1 := (List.dropWhile_sublist jynxNameChar (l := rest)).length_le
            have hb2 :=
              (List.dropWhile_sublist argTokChar
                (l := (rest.dropWhile jynxNameChar).tail)).length_le
            have h1len : 0 < (rest.dropWhile jynxNameChar).length := by
              cases hE : rest.dropWhile jynxNameChar <;> simp_all
            have h2len : 0 < ((rest.dropWhile jynxNameChar).tail.dropWhile argTokChar).length := by
              cases hE : (rest.dropWhile jynxNameChar).tail.dropWhile argTokChar <;> simp_all
            simp only [List.length_tail] at *
            omega⟩)
      else none
    else none

/-- Scan loop of `Template::parse_jynx` (src/tmpl/mod.rs lines 106-200):
`$$` and `$\x7bVAR\x7d` as in `parse`, plus `%name:arg(text)` emitting
`Func` with the two plain-string arguments `[arg, text]` (this version
takes a single parenthesised group and does not sub-parse it).  Any failed
`%` shape falls back to a literal `%` and rescans from the next character. -/
def parseJynxAux (inp : List Char) (lit : List Char) : Except SyntaxError (List Segment) :=
  match inp with
  | [] => .ok (flushSegs lit [])
  | c :: rest =>
    if c = '$' then
      match rest with
      | '$' :: r2 => parseJynxAux r2 (lit ++ ['$'])
      | '{' :: r2 =>
        match breakBrace r2 with
        | none => .error (.ResolveError "Unclosed $\x7b in template")
        | some ⟨(nm, r3), hsub⟩ =>
          if nm.all varNameChar then
            (parseJynxAux r3 []).map (fun tl => flushSegs lit (Segment.Var ⟨nm⟩ :: tl))
          else .error (.ResolveError ("Invalid var name: " ++ ⟨nm⟩))
      | [] => parseJynxAux [] (lit ++ ['$'])
      | c2 :: r2 => parseJynxAux (c2 :: r2) (lit ++ ['$'])
    else if c = '%' then
      match scanCallHead rest with
      | none => parseJynxAux rest (lit ++ ['%'])
      | some (nm, arg, ⟨r4, hr4⟩) =>
        match breakParen r4 1 with
        | none => .error (.ResolveError "Unclosed ( in %func call")
        | some ⟨(text, r5), hsub2⟩ =>
          (parseJynxAux r5 []).map (fun tl =>
            flushSegs lit (Segment.Func ⟨nm⟩ [⟨arg⟩, ⟨text⟩] :: tl))
    else parseJynxAux rest (lit ++ [c])
termination_by inp.length
decreasing_by all_goals simp_all <;> omega

/-- `Template::parse_jynx` (markup-style dialect, the version compiled into
the crate). -/
def parse_jynx (s : String) : Except SyntaxError Template := parseJynxAux s.data []

/-- Characters of a `\x7b\x7bvar\x7d\x7d` name: `is_ascii_alphanumeric`,
`_`, `-` or `.` (src/tmpl/mod.rs `parse_simple`). -/
def simpleVarChar (c : Char) : Bool := c.isAlphanum || c = '_' || c = '-' || c = '.'

/-- Classification of the trimmed inside of a `\x7b\x7b...\x7d\x7d` block as
`name:arg(text)`: `some` with the `Func` segment when the shape matches with
balanced parentheses, `none` otherwise (src/tmpl/mod.rs lines 242-277).
Anything after the closing `)` inside the block is discarded, as in the
source. -/
def classifySimpleFunc (inner : List Char) : Option Segment :=
  match scanCallHead inner with
  | none => none
  | some (nm, arg, ⟨r4, _⟩) =>
    match breakParen r4 1 with
    | none => none
    | some ⟨(text, _), _⟩ => some (Segment.Func ⟨nm⟩ [⟨arg⟩, ⟨text⟩])

/-- Scan loop of `Template::parse_simple` (src/tmpl/mod.rs lines 208-291).
On `\x7b\x7b` the pending literal is flushed first; an unterminated block
degrades to a literal `\x7b\x7b` and the scan resumes right after it; a
found block is trimmed and classified as comment, variable or function,
and otherwise re-emitted verbatim (trimmed, with the delimiters) as literal
text.  No branch constructs an error. -/
def parseSimpleAux (inp : List Char) (lit : List Char) : Except SyntaxError (List Segment) :=
  match inp with
  | [] => .ok (flushSegs lit [])
  | '{' :: '{' :: rest =>
    match breakBraces2 rest with
    | none => (parseSimpleAux rest ['{', '{']).map (fun tl => flushSegs lit tl)
    | some ⟨(innerRaw, r2), hsub⟩ =>
      match trimChars innerRaw with
      | '!' :: _ => (parseSimpleAux r2 []).map (fun tl => flushSegs lit tl)
      | _ =>
        if !(trimChars innerRaw).isEmpty ∧ (trimChars innerRaw).all simpleVarChar then
          (parseSimpleAux r2 []).map (fun tl =>
            flushSegs lit (Segment.Var ⟨trimChars innerRaw⟩ :: tl))
        else
          match classifySimpleFunc (trimChars innerRaw) with
          | some seg => (parseSimpleAux r2 []).map (fun tl => flushSegs lit (seg :: tl))
          | none =>
            (parseSimpleAux r2 ('{' :: '{' :: trimChars innerRaw ++ ['}', '}'])).map (fun tl =>
              flushSegs lit tl)
  | c :: rest => parseSimpleAux rest (lit ++ [c])
termination_by inp.length
decreasing_by all_goals simp_all <;> omega

/-- `Template::parse_simple` (double-brace dialect). -/
def parse_simple (s : String) : Except SyntaxError Template := parseSimpleAux s.data []

/-- `Template::render` (src/tmpl/mod.rs lines 84-98): the segments in order,
`Lit` verbatim, `Var` through the variable capability with a miss rendering
as the empty string, `Func` through the function capability with its error
aborting the whole evaluation.  The two capabilities are the `get` and
`call` methods of the caller's `VariableResolver` and `FuncResolver`. -/
def render (t : Template) (vars : String → Option String)
    (funcs : String → List String → Except SyntaxError String) : Except SyntaxError String :=
  match t with
  | [] => .ok ""
  | Segment.Lit s :: rest => (render rest vars funcs).map (fun r => s ++ r)
  | Segment.Var k :: rest => (render rest vars funcs).map (fun r => (vars k).getD "" ++ r)
  | Segment.Func n args :: rest =>
    (funcs n args).bind (fun s => (render rest vars funcs).map (fun r => s ++ r))

end Tmpl

/-- Splitting of a list on `,` as Rust `str::split(',')` does: the pieces
between commas, kept verbatim (no trimming); the empty input yields one
empty piece. -/
def splitComma : List Char → List (List Char)
  | [] => [[]]
  | ',' :: cs => [] :: splitComma cs
  | c :: cs =>
    match splitComma cs with
    | [] => [[c]]
    | g :: gs => (c :: g) :: gs

namespace TmplP

/-!
The richer AST that the dialect parsers under src/tmpl/parser/ build.
Its Rust definition is not among the repository's files (the parser files
refer to `Segment::Get`, `Segment::For`, `Arg::Text` and `Arg::Tpl` of
their parent module, which the staged src/tmpl/mod.rs does not define);
the constructors and their fields are exactly those the parser files
construct, and they match the spec's Segment data model (§3): `Lit` a
literal, `Var`/`Get` variable references (braced and bare form), `Func` a
call whose arguments are literal text or nested sub-templates, `For` the
iteration node.
-/
mutual

/-- An argument of a `Func` call: literal text or a nested sub-template. -/
inductive Arg where
  | Text (s : String)
  | Tpl (t : List Segment)

/-- A segment of the richer AST (see the comment above `Arg`). -/
inductive Segment where
  | Lit (s : String)
  | Var (k : String)
  | Get (k : String)
  | Func (name : String) (args : List Arg)
  | For (var : String) (list : List Segment) (body : List Segment) (sep : Option (List Segment))

end

/-- A parsed template of the richer AST: the ordered segment list. -/
abbrev Template := List Segment

/-- Pending-literal flush for the richer AST. -/
def flushSegs (lit : List Char) (tl : List Segment) : List Segment :=
  if lit.isEmpty then tl else Segment.Lit ⟨lit⟩ :: tl

/-- First character of a bare `$name`: `is_ascii_alphabetic` or `_`
(src/tmpl/parser/bash.rs). -/
def bashIdentStart (c : Char) : Bool := c.isAlpha || c = '_'

/-- Continuation characters of a bare `$name`: `is_ascii_alphanumeric`,
`_` or `-` (src/tmpl/parser/bash.rs). -/
def bashIdentChar (c : Char) : Bool := c.isAlphanum || c = '_' || c = '-'

/-- Span of the longest run of `bashIdentChar`s: the run and the rest, the
rest's length bounded for the parser's termination. -/
def bashSpanIdent (l : List Char) : { q : List Char × List Char // q.2.length ≤ l.length } :=
  ⟨(l.takeWhile bashIdentChar, l.dropWhile bashIdentChar),
    (List.dropWhile_sublist bashIdentChar (l := l)).length_le⟩

/-- Scan loop of `parse` in src/tmpl/parser/bash.rs: as the shell-style
`Template::parse` plus the bare `$name` form, which emits `Segment::Get`
with the longest identifier after the `$` and resumes right after it. -/
def bashParseAux (inp : List Char) (lit : List Char) : Except SyntaxError (List Segment) :=
  match inp with
  | [] => .ok (flushSegs lit [])
  | c :: rest =>
    if c = '$' then
      match rest with
      | [] => bashParseAux [] (lit ++ ['$'])
      | d :: r2 =>
        if d = '$' then bashParseAux r2 (lit ++ ['$'])
        else if bashIdentStart d then
          match bashSpanIdent r2 with
          | ⟨(nmTail, rem), hrem⟩ =>
            (bashParseAux rem []).map (fun tl =>
              flushSegs lit (Segment.Get ⟨d :: nmTail⟩ :: tl))
        else if d = '{' then
          match breakBrace r2 with
          | none => .error (.ResolveError "Unclosed $\x7b in template")
          | some ⟨(nm, r3), hsub⟩ =>
            if nm.all Tmpl.varNameChar then
              (bashParseAux r3 []).map (fun tl => flushSegs lit (Segment.Var ⟨nm⟩ :: tl))
            else .error (.ResolveError ("Invalid var name: " ++ ⟨nm⟩))
        else bashParseAux (d :: r2) (lit ++ ['$'])
    else bashParseAux rest (lit ++ [c])
termination_by inp.length
decreasing_by all_goals simp_all <;> omega

/-- The shell-style parser of src/tmpl/parser/bash.rs (`parse`). -/
def bash_parse (s : String) : Except SyntaxError Template := bashParseAux s.data []

/-- The group-collection loop of `parse_jynx` in src/tmpl/parser/jynx.rs:
after the first `(...)` group, as many further `(...)` groups as follow
immediately, their contents extracted with the balanced-parenthesis scan;
an unclosed group is the same hard error as in the source.  The bound on
the collected groups feeds the parser's termination. -/
def collectGroups : (l : List Char) → Except SyntaxError { p : List (List Char) × List Char // ((p.1.map List.length).sum + p.1.length) + p.2.length ≤ l.length }
  | '(' :: r =>
    match breakParen r 1 with
    | none => .error (.ResolveError "Unclosed ( in %func call")
    | some ⟨(g, rest), h⟩ =>
      match collectGroups rest with
      | .error e => .error e
      | .ok ⟨(gs, fin), h2⟩ => .ok ⟨(g :: gs, fin), by simp at h h2 ⊢ <;> omega⟩
  | l => .ok ⟨([], l), by simp⟩
termination_by l => l.length
decreasing_by all_goals simp_all <;> omega

/-- Assembly of the reserved call shapes of src/tmpl/parser/jynx.rs (and
src/tmpl/parser/simple.rs): a call named `for` becomes `Segment::For` with
group 1 the list template, group 2 the body and group 3, when present, the
separator; any other name becomes `Segment::Func` whose first argument is
the literal arg token and whose remaining arguments are the parsed group
templates. -/
def mkCallSeg (nm arg : List Char) (bodies : List (List Segment)) : Segment :=
  if String.mk nm = "for" then
    Segment.For ⟨arg⟩ (bodies.getD 0 []) (bodies.getD 1 []) bodies[2]?
  else
    Segment.Func ⟨nm⟩ (Arg.Text ⟨arg⟩ :: bodies.map Arg.Tpl)

mutual

/-- Scan loop of `parse_jynx` in src/tmpl/parser/jynx.rs: `$$` and
`$\x7bVAR\x7d` as in shell-style, and `%name:arg(g1)(g2)...` where every
parenthesised group is recursively parsed as a template of the same
dialect.  In the source the extraction and the sub-parse of the trailing
groups alternate; here the trailing groups are extracted first and parsed
after, which returns the same parse and differs only in which error is
reported when a later group is unbalanced and an earlier trailing group
also fails to parse. -/
def jynxParseAux (inp : List Char) (lit : List Char) : Except SyntaxError (List Segment) :=
  match inp with
  | [] => .ok (flushSegs lit [])
  | c :: rest =>
    if c = '$' then
      match rest with
      | '$' :: r2 => jynxParseAux r2 (lit ++ ['$'])
      | '{' :: r2 =>
        match breakBrace r2 with
        | none => .error (.ResolveError "Unclosed $\x7b in template")
        | some ⟨(nm, r3), hsub⟩ =>
          if nm.all Tmpl.varNameChar then
            (jynxParseAux r3 []).map (fun tl => flushSegs lit (Segment.Var ⟨nm⟩ :: tl))
          else .error (.ResolveError ("Invalid var name: " ++ ⟨nm⟩))
      | [] => jynxParseAux [] (lit ++ ['$'])
      | c2 :: r2 => jynxParseAux (c2 :: r2) (lit ++ ['$'])
    else if c = '%' then
      match Tmpl.scanCallHead rest with
      | none => jynxParseAux rest (lit ++ ['%'])
      | some (nm, arg, ⟨r4, hr4⟩) =>
        match breakParen r4 1 with
        | none => .error (.ResolveError "Unclosed ( in %func call")
        | some ⟨(g1, r5), hsub2⟩ =>
          (jynxParseAux g1 []).bind (fun t1 =>
            match collectGroups r5 with
            | .error e => .error e
            | .ok ⟨(gs, fin), hsub3⟩ =>
              (jynxParseBodies gs).bind (fun ts =>
                (jynxParseAux fin []).map (fun tl =>
                  flushSegs lit (mkCallSeg nm arg (t1 :: ts) :: tl))))
    else jynxParseAux rest (lit ++ [c])
termination_by inp.length
decreasing_by all_goals simp_all <;> omega

/-- Recursive parse of the extracted trailing groups, in order, each with
`parse_jynx` of the same file. -/
def jynxParseBodies (gs : List (List Char)) : Except SyntaxError (List (List Segment)) :=
  match gs with
  | [] => .ok []
  | g :: rest =>
    (jynxParseAux g []).bind (fun t => (jynxParseBodies rest).map (fun ts => t :: ts))
termination_by (gs.map List.length).sum + gs.length
decreasing_by all_goals simp_all <;> omega

end

/-- The markup-style parser of src/tmpl/parser/jynx.rs (`parse_jynx`). -/
def jynx_parse (s : String) : Except SyntaxError Template := jynxParseAux s.data []

/-- Modelled from the spec: the innermost-first lookup in the iteration
scope stack (§4.2, §9 "a small chained lookup structure consulted
innermost-first"); the evaluator that maintains it is repository code
missing from src/. -/
def lookupScope : List (String × String) → String → Option String
  | [], _ => none
  | (k, v) :: rest, key => if k = key then some v else lookupScope rest key

mutual

/-- Modelled from the spec: the evaluator of the richer AST (§4.2).  The
Rust evaluator for `Segment::Get`, `Segment::For` and `Arg` is repository
code missing from src/ (src/tmpl/parser/ builds these nodes, and the
`render` of the staged src/tmpl/mod.rs does not know them); this definition
follows the spec's words: segments strictly in sequence, left to right,
with the first error aborting the whole evaluation. -/
def renderT (vars : String → Option String)
    (funcs : String → List String → Except SyntaxError String)
    (scope : List (String × String)) : List Segment → Except SyntaxError String
  | [] => .ok ""
  | seg :: rest =>
    (renderSeg vars funcs scope seg).bind (fun s =>
      (renderT vars funcs scope rest).map (fun r => s ++ r))

/-- Modelled from the spec: one segment (§3, §4.2).  `Lit` is emitted
verbatim; `Var` and `Get` are the braced and the bare variable reference,
resolved innermost-scope-first and then through the variable capability,
a miss rendering as the empty string; `Func` evaluates its arguments left
to right and invokes the function capability with the call name and the
evaluated argument strings; `For` evaluates the list template, splits it
on commas (zero items for the empty string), evaluates the body once per
item with the variable bound to the item in a transient innermost scope,
and joins the results with the evaluated separator (empty when absent). -/
def renderSeg (vars : String → Option String)
    (funcs : String → List String → Except SyntaxError String)
    (scope : List (String × String)) : Segment → Except SyntaxError String
  | Segment.Lit s => .ok s
  | Segment.Var k => .ok (((lookupScope scope k).orElse (fun _ => vars k)).getD "")
  | Segment.Get k => .ok (((lookupScope scope k).orElse (fun _ => vars k)).getD "")
  | Segment.Func n args => (renderArgs vars funcs scope args).bind (fun vals => funcs n vals)
  | Segment.For v lst body sep =>
    (renderT vars funcs scope lst).bind (fun ls =>
      (renderItems vars funcs v body scope
          (if ls = "" then [] else (splitComma ls.data).map String.mk)).bind (fun parts =>
        (match sep with
          | none => Except.ok ""
          | some st => renderT vars funcs scope st).map (fun sepS => joinSep sepS parts)))

/-- Modelled from the spec: the arguments of a call, left to right, a
`Text` argument taken verbatim and a `Tpl` argument fully evaluated to a
string before the call (§3 FunctionCall). -/
def renderArgs (vars : String → Option String)
    (funcs : String → List String → Except SyntaxError String)
    (scope : List (String × String)) : List Arg → Except SyntaxError (List String)
  | [] => .ok []
  | Arg.Text s :: rest =>
    (renderArgs vars funcs scope rest).map (fun vs => s :: vs)
  | Arg.Tpl t :: rest =>
    (renderT vars funcs scope t).bind (fun s =>
      (renderArgs vars funcs scope rest).map (fun vs => s :: vs))

/-- Modelled from the spec: the iteration's items in order, the body
evaluated with the variable bound to the item in a scope pushed over the
caller's and popped afterwards (§4.2). -/
def renderItems (vars : String → Option String)
    (funcs : String → List String → Except SyntaxError String)
    (v : String) (body : List Segment)
    (scope : List (String × String)) : List String → Except SyntaxError (List String)
  | [] => .ok []
  | it :: restItems =>
    (renderT vars funcs ((v, it) :: scope) body).bind (fun s =>
      (renderItems vars funcs v body scope restItems).map (fun vs => s :: vs))

end

/-- Modelled from the spec: evaluation of a parsed template with the two
capabilities starts with an empty scope stack. -/
def render (t : Template) (vars : String → Option String)
    (funcs : String → List String → Except SyntaxError String) : Except SyntaxError String :=
  renderT vars funcs [] t

end TmplP

namespace Cmd

/-- Stream route of src/cmd/mod.rs (`Stdio`). -/
inductive Stdio where
  | Inherit
  | Null
  | File (path : String) (append : Bool)
  | Pipe
deriving DecidableEq

/-- Execution hints of src/cmd/mod.rs (`CmdFlags`). -/
structure CmdFlags where
  background : Bool := false
  timeout_ms : Option Nat := none
  retries : Nat := 0
deriving DecidableEq

/-- One process invocation, src/cmd/mod.rs (`CommandSpec`).  The
`BTreeMap<String, String>` environment is modelled as its iteration
sequence, a list of key-value pairs (the map iterates in ascending key
order; the renderers only ever iterate it). -/
structure CommandSpec where
  program : String := ""
  args : List String := []
  env : List (String × String) := []
  cwd : Option String := none
  stdin : Stdio := Stdio.Inherit
  stdout : Stdio := Stdio.Inherit
  stderr : Stdio := Stdio.Inherit
  flags : CmdFlags := {}
deriving DecidableEq

end Cmd

namespace Render

open Cmd

/-- Rust `str::replace` with a string pattern: the occurrences of `pat`
found left to right, non-overlapping, each replaced by `to`.  The sources
only call it with non-empty patterns; for an empty pattern this model
returns the input unchanged. -/
def replaceList (l pat rep : List Char) : List Char :=
  match l with
  | [] => []
  | c :: cs =>
    if pat ≠ [] ∧ pat.isPrefixOf (c :: cs) then
      rep ++ replaceList ((c :: cs).drop pat.length) pat rep
    else c :: replaceList cs pat rep
termination_by l.length
decreasing_by all_goals
  simp_all [List.length_drop, ← List.length_eq_zero] <;> omega

/-- Rust `str::replace` on strings. -/
def rustReplace (s pat rep : String) : String := ⟨replaceList s.data pat.data rep.data⟩

/-- Rust `str::replace` with a `char` pattern, as `quote_win` and the
Windows environment rendering call it: each occurrence of the character
replaced by `to`. -/
def replaceChar (s : String) (c : Char) (rep : String) : String :=
  ⟨s.data.flatMap (fun x => if x = c then rep.data else [x])⟩

/-- `quote_sh` of src/render/mod.rs lines 181-185: the empty string renders
as two single quotes; any other string is wrapped in single quotes with
each embedded single quote replaced by the five-character sequence
single-quote, double-quote, single-quote, double-quote, single-quote. -/
def quote_sh (s : String) : String :=
  if s.isEmpty then "''" else "'" ++ rustReplace s "'" "'\"'\"'" ++ "'"

/-- Character class of a bare (unquoted) POSIX word, src/render/mod.rs
`is_simple_word`. -/
def simpleWordChar (c : Char) : Bool :=
  c.isAlpha || c.isDigit || c = '_' || c = '-' || c = '.' || c = '/' || c = ':'
    || c = '+' || c = '%' || c = '@' || c = '=' || c = ','

/-- `is_simple_word` of src/render/mod.rs. -/
def is_simple_word (s : String) : Bool := s.data.all simpleWordChar

/-- `quote_prog` of src/render/mod.rs: bare when simple, quoted otherwise. -/
def quote_prog (p : String) : String := if is_simple_word p then p else quote_sh p

/-- Character class of a bare Windows word, src/render/mod.rs
`is_simple_word_win` (back-slash allowed, and the word must be non-empty). -/
def simpleWordCharWin (c : Char) : Bool :=
  c.isAlpha || c.isDigit || c = '_' || c = '-' || c = '.' || c = '/' || c = '\\'
    || c = ':' || c = '+' || c = '%' || c = '@' || c = '=' || c = ','

/-- `is_simple_word_win` of src/render/mod.rs. -/
def is_simple_word_win (s : String) : Bool := !s.isEmpty && s.data.all simpleWordCharWin

/-- `quote_win` of src/render/mod.rs: bare when simple, otherwise wrapped
in double quotes with each embedded double quote doubled. -/
def quote_win (s : String) : String :=
  if is_simple_word_win s then s else "\"" ++ replaceChar s '"' "\"\"" ++ "\""

/-- `quote_prog_win` of src/render/mod.rs. -/
def quote_prog_win (p : String) : String :=
  if is_simple_word_win p then p else quote_win p

/-- `render_redir` of src/render/mod.rs: the POSIX redirection token for
one stream, `none` when the route adds no token. -/
def render_redir (fd : Nat) (io : Stdio) : Option String :=
  match fd, io with
  | _, Stdio.Inherit => none
  | 0, Stdio.Null => some "< /dev/null"
  | 1, Stdio.Null => some "> /dev/null"
  | 2, Stdio.Null => some "2> /dev/null"
  | 0, Stdio.File path _ => some ("< " ++ quote_sh path)
  | 1, Stdio.File path app => some ((if app then ">>" else ">") ++ " " ++ quote_sh path)
  | 2, Stdio.File path app => some ("2" ++ (if app then ">>" else ">") ++ " " ++ quote_sh path)
  | _, Stdio.Pipe => none
  | _, _ => none

/-- `render_redir_win` of src/render/mod.rs: as `render_redir` with `NUL`
for the null device and Windows quoting. -/
def render_redir_win (fd : Nat) (io : Stdio) : Option String :=
  match fd, io with
  | _, Stdio.Inherit => none
  | 0, Stdio.Null => some "< NUL"
  | 1, Stdio.Null => some "> NUL"
  | 2, Stdio.Null => some "2> NUL"
  | 0, Stdio.File path _ => some ("< " ++ quote_win path)
  | 1, Stdio.File path app => some ((if app then ">>" else ">") ++ " " ++ quote_win path)
  | 2, Stdio.File path app => some ("2" ++ (if app then ">>" else ">") ++ " " ++ quote_win path)
  | _, Stdio.Pipe => none
  | _, _ => none

/-- `PosixRenderer::render_cmd` of src/render/mod.rs lines 30-67: an empty
program name errors before anything is composed; otherwise environment
assignments, the program, the quoted arguments and the redirection tokens
are joined with single spaces, and a working directory prepends a
`cd <dir> && ` prefix. -/
def posixRenderCmd (cmd : CommandSpec) : Except SyntaxError String :=
  if cmd.program = "" then .error (.RenderError "program empty")
  else
    let parts : List String :=
      cmd.env.map (fun kv => kv.1 ++ "=" ++ quote_sh kv.2)
        ++ [quote_prog cmd.program]
        ++ cmd.args.map quote_sh
        ++ (render_redir 0 cmd.stdin).toList
        ++ (render_redir 1 cmd.stdout).toList
        ++ (render_redir 2 cmd.stderr).toList
    let cmdStr := joinSep " " parts
    match cmd.cwd with
    | some dir => .ok ("cd " ++ quote_sh dir ++ " && " ++ cmdStr)
    | none => .ok cmdStr

/-- `WinRenderer::render_cmd` of src/render/mod.rs lines 92-120: an empty
program name errors first; otherwise an optional `cd /d <dir> &&`, the
chained `set "KEY=VALUE" &&` environment entries (the value passed through
`v.replace('"', "\"")`, written here exactly as the source has it), the
program, the quoted arguments and the redirection tokens, joined with
single spaces. -/
def winRenderCmd (cmd : CommandSpec) : Except SyntaxError String :=
  if cmd.program = "" then .error (.RenderError "program empty")
  else
    let parts : List String :=
      (match cmd.cwd with
        | some dir => ["cd /d " ++ quote_win dir ++ " &&"]
        | none => [])
        ++ cmd.env.map (fun kv => "set \"" ++ kv.1 ++ "=" ++ replaceChar kv.2 '"' "\"" ++ "\" &&")
        ++ [quote_prog_win cmd.program]
        ++ cmd.args.map quote_win
        ++ (render_redir_win 0 cmd.stdin).toList
        ++ (render_redir_win 1 cmd.stdout).toList
        ++ (render_redir_win 2 cmd.stderr).toList
    .ok (joinSep " " parts)

end Render

namespace Easy

/-- Update of a string-keyed map, the observable effect of the Rust
`HashMap::insert` of src/easy.rs (the map modelled as its lookup
function). -/
def mapUpdate (m : String → Option String) (k v : String) : String → Option String :=
  fun x => if x = k then some v else m x

/-- `impl FuncResolver for Store` of src/easy.rs lines 32-39: `call`
returns the new backing map together with the result.  Only the name
`set` with at least two arguments inserts `args[0] -> args[1]`; every call
returns `Ok("")`. -/
def storeCall (m : String → Option String) (name : String) (args : List String) :
    (String → Option String) × Except SyntaxError String :=
  if name = "set" then
    match args with
    | a0 :: a1 :: _ => (mapUpdate m a0 a1, .ok "")
    | _ => (m, .ok "")
  else (m, .ok "")

end Easy

/-- Presence of two adjacent open braces (the opener of a double-brace
block) somewhere in the input. -/
def hasDoubleBrace : List Char → Bool
  | '{' :: '{' :: _ => true
  | _ :: cs => hasDoubleBrace cs
  | [] => false

/-- The spec's words for the body of `quote_sh` on a non-empty string, for
comparison with the source definition: each embedded single quote replaced
by the five-character close-quote, double-quoted-quote, reopen-quote
sequence, every other character kept. -/
def quoteShSpecBody (s : String) : String :=
  ⟨s.data.flatMap (fun c => if c = '\'' then "'\"'\"'".data else [c])⟩

/-- C10: the Store function capability never errors; `call` updates the
backing map exactly when the name is `set` with at least two arguments,
inserting `args[0] -> args[1]` and returning the empty string, and leaves
the map unchanged returning the empty string in every other case. -/
theorem store_call_frame (m : String → Option String) (name : String) (args : List String) :
    Easy.storeCall m name args =
      (if name = "set" ∧ 2 ≤ args.length then Easy.mapUpdate m (args.getD 0 "") (args.getD 1 "")
       else m,
       Except.ok "") := by
  unfold Easy.storeCall
  by_cases hn : name = "set"
  · subst hn
    match args with
    | [] => simp
    | [a] => simp
    | a0 :: a1 :: rest => simp
  · simp [hn]


/-- Helper: mapping over an exception value keeps its success flag. -/
theorem except_isOk_map {α β γ : Type} (f : α → β) (x : Except γ α) :
    (x.map f).isOk = x.isOk := by
  cases x <;> rfl

/-- Helper: one literal step of the double-brace scan: a character that
does not open a `\x7b\x7b` block joins the pending literal. -/
theorem parseSimpleAux_step_lit (c : Char) (rest lit : List Char)
    (hx : ∀ r', c = '{' → rest = '{' :: r' → False) :
    Tmpl.parseSimpleAux (c :: rest) lit = Tmpl.parseSimpleAux rest (lit ++ [c]) := by
  simp [Tmpl.parseSimpleAux, hx]

/-- Helper: the double-brace scan loop never constructs an error, whatever
the input and pending literal (induction on a length bound). -/
theorem parseSimpleAux_isOk_bounded (n : Nat) :
    ∀ (inp lit : List Char), inp.length ≤ n → (Tmpl.parseSimpleAux inp lit).isOk = true := by
  induction n with
  | zero =>
    intro inp lit h
    have hnil : inp = [] := by cases inp <;> simp_all
    subst hnil
    rw [Tmpl.parseSimpleAux]
    rfl
  | succ n ihn =>
    intro inp lit h
    cases inp with
    | nil =>
      rw [Tmpl.parseSimpleAux]
      rfl
    | cons c rest =>
      by_cases hb : c = '{' ∧ ∃ r', rest = '{' :: r'
      · obtain ⟨hc, r', hr⟩ := hb
        subst hc
        subst hr
        rw [Tmpl.parseSimpleAux]
        simp only [List.length_cons] at h
        cases hbb : breakBraces2 r' with
        | none =>
          simp only [hbb]
          rw [except_isOk_map]
          apply ihn
          omega
        | some pr =>
          obtain ⟨⟨inner, r⟩, hsub⟩ := pr
          have hlen : inner.length + r.length + 2 = r'.length := hsub
          simp only [hbb]
          repeat' split
          all_goals rw [except_isOk_map]
          all_goals apply ihn
          all_goals omega
      · have hx : ∀ r', c = '{' → rest = '{' :: r' → False := by
          intro r' h1 h2
          exact hb ⟨h1, r', h2⟩
        rw [parseSimpleAux_step_lit c rest lit hx]
        apply ihn
        simp only [List.length_cons] at h
        omega

/-- C9: double-brace parsing is total in its error channel; for every input
string `Template::parse_simple` returns `Ok` (malformed constructs degrade
to literal text; no branch of the function builds a parse failure). -/
theorem parse_simple_total (s : String) : (Tmpl.parse_simple s).isOk = true :=
  parseSimpleAux_isOk_bounded s.data.length s.data [] (Nat.le_refl _)

/-- C8: for both renderers `render_cmd` fails exactly on the empty program
name, with the `RenderError` raised before any output is composed, and
succeeds on every CommandSpec with a non-empty program. -/
theorem render_cmd_err_iff_empty_program (cmd : Cmd.CommandSpec) :
    ((Render.posixRenderCmd cmd).isOk ↔ cmd.program ≠ "") ∧
    ((Render.winRenderCmd cmd).isOk ↔ cmd.program ≠ "") ∧
    (Render.posixRenderCmd cmd = .error (.RenderError "program empty") ↔ cmd.program = "") ∧
    (Render.winRenderCmd cmd = .error (.RenderError "program empty") ↔ cmd.program = "") := by
  unfold Render.posixRenderCmd Render.winRenderCmd
  by_cases h : cmd.program = "" <;>
    simp [h, Except.isOk, Except.toBool] <;>
    cases cmd.cwd <;> simp

/-- C1 (code bug): the Windows environment rendering does not double
embedded double quotes.  `v.replace('"', "\"")` replaces a double quote by
a single double quote, the identity transformation, so an environment
value's quotes reach the output unchanged: the spec's `set "KEY=VALUE"`
with doubled quotes is not what the code emits. -/
theorem win_env_quote_not_doubled :
    (∀ v : String, Render.replaceChar v '"' "\"" = v) ∧
    Render.winRenderCmd { program := "app", env := [("K", "a\"b")] } =
      .ok "set \"K=a\"b\" && app" := by
  constructor
  · intro v
    have hq : ("\"" : String).data = ['"'] := rfl
    have hl : ∀ l : List Char, l.flatMap (fun x => if x = '"' then ("\"" : String).data else [x]) = l := by
      intro l
      induction l with
      | nil => rfl
      | cons c cs ih => by_cases hc : c = '"' <;> simp [hc, ih, hq]
    unfold Render.replaceChar
    cases v with
    | mk data => simp [hl]
  · rfl

/-- Helper: Rust replace with a one-character pattern is the character-wise
expansion of that character. -/
theorem replaceList_singleton (c : Char) (rep : List Char) (l : List Char) :
    Render.replaceList l [c] rep = l.flatMap (fun x => if x = c then rep else [x]) := by
  induction l with
  | nil => simp [Render.replaceList]
  | cons d cs ih =>
    rw [Render.replaceList]
    by_cases hd : d = c
    · subst hd
      simp [List.isPrefixOf, ih]
    · have hd2 : ¬c = d := fun h => hd h.symm
      simp [List.isPrefixOf, hd, hd2, ih]

/-- C2: `quote_sh` maps the empty string to two single quotes and any other
string to the string wrapped in single quotes with every embedded single
quote expanded to the POSIX idiom (close quote, double-quoted quote, reopen
quote), character for character, for every input. -/
theorem quote_sh_posix_idiom :
    Render.quote_sh "" = "''" ∧
    Render.quote_sh "a'b" = "'a'\"'\"'b'" ∧
    ∀ s : String, s ≠ "" → Render.quote_sh s = "'" ++ quoteShSpecBody s ++ "'" := by
  have key : ∀ s : String, s ≠ "" → Render.quote_sh s = "'" ++ quoteShSpecBody s ++ "'" := by
    intro s hs
    unfold Render.quote_sh Render.rustReplace quoteShSpecBody
    rw [if_neg (by simpa [String.isEmpty_iff] using hs)]
    rw [show ("'" : String).data = ['\''] from rfl]
    rw [replaceList_singleton]
  refine ⟨rfl, ?_, key⟩
  rw [key "a'b" (by decide)]
  rfl

/-- C5: in the shell-style dialect of src/tmpl/parser/bash.rs, a `$`
followed by an identifier head (letter or underscore) parses as a bare
variable-reference segment (`Segment::Get`) naming the longest identifier
run (alphanumerics, `_`, `-`) after the `$`, wherever the scan meets it:
the equation holds for every pending literal, head character and tail. -/
theorem bash_dollar_name_variable_ref (lit : List Char) (c : Char) (cs : List Char)
    (h : TmplP.bashIdentStart c = true) :
    TmplP.bashParseAux ('$' :: c :: cs) lit =
      (TmplP.bashParseAux (cs.dropWhile TmplP.bashIdentChar) []).map (fun tl =>
        TmplP.flushSegs lit (TmplP.Segment.Get ⟨c :: cs.takeWhile TmplP.bashIdentChar⟩ :: tl)) := by
  have hds : TmplP.bashIdentStart '$' = false := by decide
  have hc : ¬c = '$' := by
    intro he
    rw [he, hds] at h
    cases h
  rw [TmplP.bashParseAux]
  simp [hc, h, TmplP.bashSpanIdent]

/-- Witness for C5 at a concrete scan state: `$USR x` with an empty pending
literal parses the maximal name `USR` into a `Get` segment and resumes at
the space. -/
theorem bash_dollar_name_variable_ref_witness :
    TmplP.bashParseAux ('$' :: 'U' :: "SR x".data) [] =
      (TmplP.bashParseAux ("SR x".data.dropWhile TmplP.bashIdentChar) []).map (fun tl =>
        TmplP.flushSegs [] (TmplP.Segment.Get ⟨'U' :: "SR x".data.takeWhile TmplP.bashIdentChar⟩ :: tl)) :=
  bash_dollar_name_variable_ref [] 'U' "SR x".data (by decide)

/-- Helper: one literal step of the shell-style scan. -/
theorem parseAux_step_lit (c : Char) (rest lit : List Char) (hc : ¬c = '$') :
    Tmpl.parseAux (c :: rest) lit = Tmpl.parseAux rest (lit ++ [c]) := by
  rw [Tmpl.parseAux.eq_def]
  simp [hc]

/-- Helper: one literal step of the markup-style scan of src/tmpl/mod.rs. -/
theorem parseJynxAux_step_lit (c : Char) (rest lit : List Char) (hc : ¬c = '$')
    (hp : ¬c = '%') :
    Tmpl.parseJynxAux (c :: rest) lit = Tmpl.parseJynxAux rest (lit ++ [c]) := by
  rw [Tmpl.parseJynxAux.eq_def]
  simp [hc, hp]

/-- Helper: a dollar-free input is swallowed whole into the pending
literal by the shell-style scan. -/
theorem parseAux_literal (inp : List Char) :
    ∀ lit, '$' ∉ inp → Tmpl.parseAux inp lit = .ok (Tmpl.flushSegs (lit ++ inp) []) := by
  induction inp with
  | nil =>
    intro lit h
    rw [Tmpl.parseAux.eq_def]
    simp
  | cons c cs ih =>
    intro lit h
    have hc : ¬c = '$' := by
      intro he
      exact h (by rw [he]; exact List.mem_cons_self '$' cs)
    have hcs : '$' ∉ cs := fun hm => h (List.mem_cons_of_mem c hm)
    rw [parseAux_step_lit c cs lit hc, ih (lit ++ [c]) hcs]
    simp

/-- Helper: a dollar- and percent-free input is swallowed whole into the
pending literal by the markup-style scan. -/
theorem parseJynxAux_literal (inp : List Char) :
    ∀ lit, '$' ∉ inp → '%' ∉ inp →
      Tmpl.parseJynxAux inp lit = .ok (Tmpl.flushSegs (lit ++ inp) []) := by
  induction inp with
  | nil =>
    intro lit h hp
    rw [Tmpl.parseJynxAux.eq_def]
    simp
  | cons c cs ih =>
    intro lit h hp
    have hc : ¬c = '$' := by
      intro he
      exact h (by rw [he]; exact List.mem_cons_self '$' cs)
    have hcp : ¬c = '%' := by
      intro he
      exact hp (by rw [he]; exact List.mem_cons_self '%' cs)
    rw [parseJynxAux_step_lit c cs lit hc hcp,
      ih (lit ++ [c]) (fun hm => h (List.mem_cons_of_mem c hm))
        (fun hm => hp (List.mem_cons_of_mem c hm))]
    simp

/-- Helper: stepping past the head of a brace-pair-free input keeps the
rest brace-pair-free and rules out an opening pair at the head. -/
theorem hasDoubleBrace_cons_false {c : Char} {cs : List Char}
    (h : hasDoubleBrace (c :: cs) = false) :
    hasDoubleBrace cs = false ∧ ∀ r', c = '{' → cs = '{' :: r' → False := by
  rcases cs with _ | ⟨d, cs'⟩
  · exact ⟨rfl, by intro r' _ h2; cases h2⟩
  · constructor
    · by_cases hc : c = '{' <;> by_cases hd2 : d = '{' <;>
        (first
          | (subst hc; subst hd2; rw [hasDoubleBrace] at h; cases h)
          | simpa [hasDoubleBrace, hc, hd2] using h)
    · intro r' h1 h2
      subst h1
      injection h2 with h3 h4
      subst h3
      subst h4
      rw [hasDoubleBrace] at h
      cases h

/-- Helper: a brace-pair-free input is swallowed whole into the pending
literal by the double-brace scan. -/
theorem parseSimpleAux_literal (inp : List Char) :
    ∀ lit, hasDoubleBrace inp = false →
      Tmpl.parseSimpleAux inp lit = .ok (Tmpl.flushSegs (lit ++ inp) []) := by
  induction inp with
  | nil =>
    intro lit h
    rw [Tmpl.parseSimpleAux]
    simp
  | cons c cs ih =>
    intro lit h
    obtain ⟨htail, hx⟩ := hasDoubleBrace_cons_false h
    rw [parseSimpleAux_step_lit c cs lit hx, ih (lit ++ [c]) htail]
    simp

/-- Counterexample for C6 as stated: the empty string contains no `$`, `%`
or `\x7b\x7b`, yet all three parsers return the empty template — zero
segments, not "exactly one literal segment whose text equals s". -/
theorem literal_passthrough_empty_cex :
    Tmpl.parse "" = .ok [] ∧ Tmpl.parse_jynx "" = .ok [] ∧ Tmpl.parse_simple "" = .ok [] ∧
    ¬Tmpl.parse "" = .ok [Tmpl.Segment.Lit ""] := by
  refine ⟨?_, ?_, ?_, ?_⟩ <;>
    simp [Tmpl.parse, Tmpl.parse_jynx, Tmpl.parse_simple, Tmpl.parseAux, Tmpl.parseJynxAux,
      Tmpl.parseSimpleAux, Tmpl.flushSegs]

/-- C6 amended: for every NON-EMPTY ASCII string with no `$`, no `%` and
no `\x7b\x7b` pair, the three parsers of src/tmpl/mod.rs each return
exactly one literal segment equal to the input, and rendering that
template with any resolvers returns the input unchanged (the empty string
instead parses to the empty template, which renders to the empty string).
The ASCII bound is load-bearing: the source scans bytes and accumulates
literals as `bytes[i] as char`, advancing by that byte-char's
`len_utf8()`, so a multi-byte character is re-decoded byte-as-char
(`parse("é")` yields `Lit("Ã")`, not `Lit("é")`) and passthrough fails
beyond ASCII, where bytes and chars coincide. -/
theorem literal_passthrough_amended (s : String) (hne : s ≠ "")
    (hascii : ∀ c ∈ s.data, c.toNat < 128)
    (hd : '$' ∉ s.data) (hp : '%' ∉ s.data) (hb : hasDoubleBrace s.data = false) :
    Tmpl.parse s = .ok [Tmpl.Segment.Lit s] ∧
    Tmpl.parse_jynx s = .ok [Tmpl.Segment.Lit s] ∧
    Tmpl.parse_simple s = .ok [Tmpl.Segment.Lit s] ∧
    ∀ (vars : String → Option String) (funcs : String → List String → Except SyntaxError String),
      Tmpl.render [Tmpl.Segment.Lit s] vars funcs = .ok s := by
  have hmk : (⟨s.data⟩ : String) = s := by cases s; rfl
  have hdne : s.data.isEmpty = false := by
    cases s with
    | mk d =>
      cases d with
      | nil => exact absurd rfl hne
      | cons a l => rfl
  refine ⟨?_, ?_, ?_, ?_⟩
  · rw [Tmpl.parse, parseAux_literal s.data [] hd]
    simp [Tmpl.flushSegs, hdne, hmk]
  · rw [Tmpl.parse_jynx, parseJynxAux_literal s.data [] hd hp]
    simp [Tmpl.flushSegs, hdne, hmk]
  · rw [Tmpl.parse_simple, parseSimpleAux_literal s.data [] hb]
    simp [Tmpl.flushSegs, hdne, hmk]
  · intro vars funcs
    simp [Tmpl.render, Except.map]

/-- Witness for the amended C6 at `"hello world"`, a non-empty ASCII
string free of the three trigger shapes. -/
theorem literal_passthrough_amended_witness :
    Tmpl.parse "hello world" = .ok [Tmpl.Segment.Lit "hello world"] ∧
    Tmpl.parse_jynx "hello world" = .ok [Tmpl.Segment.Lit "hello world"] ∧
    Tmpl.parse_simple "hello world" = .ok [Tmpl.Segment.Lit "hello world"] ∧
    ∀ (vars : String → Option String) (funcs : String → List String → Except SyntaxError String),
      Tmpl.render [Tmpl.Segment.Lit "hello world"] vars funcs = .ok "hello world" :=
  literal_passthrough_amended "hello world" (by decide) (by decide) (by decide) (by decide)
    (by decide)

/-- Helper: binding a success value applies the continuation. -/
theorem except_bind_ok {e a b : Type} (x : a) (f : a → Except e b) :
    (Except.ok x : Except e a).bind f = f x := by
  simp [Except.bind]

/-- Helper: mapping over a success value applies the function. -/
theorem except_map_ok {e a b : Type} (f : a → b) (x : a) :
    Except.map f (Except.ok x : Except e a) = Except.ok (f x) := by
  simp [Except.map]

/-- C3: the markup-style parser of src/tmpl/parser/jynx.rs turns
`%for:item(a,b,c)([$\x7bitem\x7d])(,)` into a single `For` node — group 1
the list template, group 2 the body with a variable reference to `item`,
group 3 the separator — and evaluating that template with `item` unbound
in the outer scope yields `[a],[b],[c]`: three iterations, each with a
private innermost binding of `item`, joined by the evaluated separator. -/
theorem jynx_for_iteration_scenario :
    TmplP.jynx_parse "%for:item(a,b,c)([${item}])(,)" =
      .ok [TmplP.Segment.For "item" [TmplP.Segment.Lit "a,b,c"]
        [TmplP.Segment.Lit "[", TmplP.Segment.Var "item", TmplP.Segment.Lit "]"]
        (some [TmplP.Segment.Lit ","])] ∧
    ∀ (vars : String → Option String) (funcs : String → List String → Except SyntaxError String),
      vars "item" = none →
      TmplP.render [TmplP.Segment.For "item" [TmplP.Segment.Lit "a,b,c"]
        [TmplP.Segment.Lit "[", TmplP.Segment.Var "item", TmplP.Segment.Lit "]"]
        (some [TmplP.Segment.Lit ","])] vars funcs = .ok "[a],[b],[c]" := by
  constructor
  · simp +decide [TmplP.jynx_parse, TmplP.jynxParseAux, TmplP.jynxParseBodies, Tmpl.scanCallHead,
      breakParen, TmplP.collectGroups, breakBrace, TmplP.flushSegs, TmplP.mkCallSeg,
      Tmpl.varNameChar, Tmpl.jynxNameChar, Tmpl.argTokChar, Except.map, Except.bind,
      Char.isAlphanum, Char.isAlpha, Char.isDigit, rustIsWhitespace, List.contains,
      List.dropWhile, List.takeWhile]
  · intro vars funcs hv
    have hbody : ∀ it : String, TmplP.renderT vars funcs [("item", it)]
        [TmplP.Segment.Lit "[", TmplP.Segment.Var "item", TmplP.Segment.Lit "]"] =
          .ok ("[" ++ it ++ "]") := by
      intro it
      simp only [TmplP.renderT, TmplP.renderSeg, TmplP.lookupScope, if_pos rfl]
      rfl
    have hitems : TmplP.renderItems vars funcs "item"
        [TmplP.Segment.Lit "[", TmplP.Segment.Var "item", TmplP.Segment.Lit "]"] []
        ["a", "b", "c"] = .ok ["[a]", "[b]", "[c]"] := by
      simp only [TmplP.renderItems, hbody]
      rfl
    rw [TmplP.render]
    simp only [TmplP.renderT, TmplP.renderSeg]
    simp only [except_bind_ok, except_map_ok]
    have hsplit : (if ("a,b,c" ++ "" : String) = "" then ([] : List String)
        else (splitComma ("a,b,c" ++ "" : String).data).map String.mk) = ["a", "b", "c"] := by
      decide
    rw [hsplit, hitems]
    simp only [except_bind_ok]
    rfl

